import Mathlib

/-!
# PicShrink: transform pipeline and batch scheduler, formalized

A shallow embedding of the PicShrink image tool.  The transform pipeline
(`canvasDims`, `renderOps`, `perturbPixelData`, `searchGo`, `processImage`)
is translated from `processImage` in `src/types.ts`; the batch scheduler
(`SchedStep` and its state functions) is translated from the two
`useEffect` blocks and the handlers in `src/App.tsx`.  Image encoding
(`canvas.toBlob`) is a host API, so it is abstracted as a function
`ℚ → Option ℕ` from quality to the size of the encoded blob (`none`
models a `null` blob).
-/

namespace PicShrink

attribute [local semireducible] Rat.mul Rat.add Rat.sub Rat.inv Rat.ofScientific

/-- The tool variants (`ToolType` in `src/types.ts`, extended variant used by
`processImage` and the sidebar). -/
inductive Tool
  | compress | convert | md5 | resize | crop | rotate
deriving DecidableEq, Repr

/-- Output formats supported by `ProcessingSettings.format`. -/
inductive ImgFormat
  | jpeg | png | webp
deriving DecidableEq, Repr

/-- The `resizeMode` field: explicit dimensions or a percentage of the source. -/
inductive ResizeMode
  | dimensions | percentage
deriving DecidableEq, Repr

/-- The `cropRatio` field: the literal string `original`, or a parsed `rw:rh`
ratio of two numbers. -/
inductive CropRatio
  | original
  | ratio (rw rh : ℕ)
deriving DecidableEq, Repr

/-- Record `ProcessingSettings` from `src/types.ts`, with the extended fields used
by the resize/crop/rotate branches of `processImage`. -/
structure ProcessingSettings where
  tool : Tool
  maxSizeKB : ℚ
  maxWidthOrHeight : ℚ
  format : ImgFormat
  resizeMode : ResizeMode
  resizeWidth : ℚ
  resizeHeight : ℚ
  resizePercentage : ℚ
  maintainAspectRatio : Bool
  cropRatio : CropRatio
  rotateAngle : ℕ
  flipHorizontal : Bool
  flipVertical : Bool
deriving DecidableEq, Repr

/-- Source: `let targetRatio = 1; const [rw, rh] = cropRatio.split(':').map(Number);
if (rw && rh) targetRatio = rw / rh;` -/
def targetRatioOf : CropRatio → ℚ
  | CropRatio.original => 1
  | CropRatio.ratio rw rh => if rw ≠ 0 ∧ rh ≠ 0 then (rw : ℚ) / (rh : ℚ) else 1

/-- The source rectangle selected by the crop branch: offsets and size. -/
structure CropRect where
  x : ℚ
  y : ℚ
  w : ℚ
  h : ℚ
deriving DecidableEq, Repr

/-- The centered crop computation of the `crop` branch of `processImage`. -/
def cropRect (srcW srcH targetRatio : ℚ) : CropRect :=
  let currentRatio := srcW / srcH
  if currentRatio > targetRatio then
    let cropWidth := srcH * targetRatio
    { x := (srcW - cropWidth) / 2, y := 0, w := cropWidth, h := srcH }
  else
    let cropHeight := srcW / targetRatio
    { x := 0, y := (srcH - cropHeight) / 2, w := srcW, h := cropHeight }

/-- Canvas (output surface) dimensions computed by `processImage` for given
settings and source dimensions, branch by branch:
rotate (swap on 90/270), crop (centered crop rectangle), resize
(percentage or dimension mode), and the default branch with the
compress-only `maxWidthOrHeight` downscale. -/
def canvasDims (s : ProcessingSettings) (srcW srcH : ℚ) : ℚ × ℚ :=
  if s.tool = Tool.rotate then
    if s.rotateAngle = 90 ∨ s.rotateAngle = 270 then (srcH, srcW) else (srcW, srcH)
  else if s.tool = Tool.crop ∧ s.cropRatio ≠ CropRatio.original then
    let r := cropRect srcW srcH (targetRatioOf s.cropRatio)
    (r.w, r.h)
  else if s.tool = Tool.resize then
    if s.resizeMode = ResizeMode.percentage then
      let p := s.resizePercentage / 100
      (((round (srcW * p) : ℤ) : ℚ), ((round (srcH * p) : ℤ) : ℚ))
    else if s.maintainAspectRatio then
      let ratio := srcW / srcH
      if s.resizeWidth > 0 then
        (s.resizeWidth, ((round (s.resizeWidth / ratio) : ℤ) : ℚ))
      else if s.resizeHeight > 0 then
        (((round (s.resizeHeight * ratio) : ℤ) : ℚ), s.resizeHeight)
      else (srcW, srcH)
    else
      ((if s.resizeWidth > 0 then s.resizeWidth else srcW),
       (if s.resizeHeight > 0 then s.resizeHeight else srcH))
  else
    if s.tool = Tool.compress ∧ s.maxWidthOrHeight > 0 ∧
        (srcW > s.maxWidthOrHeight ∨ srcH > s.maxWidthOrHeight) then
      let ratio := srcW / srcH
      if ratio > 1 then (s.maxWidthOrHeight, s.maxWidthOrHeight / ratio)
      else (s.maxWidthOrHeight * ratio, s.maxWidthOrHeight)
    else (srcW, srcH)

/-- Canvas context operations issued by `processImage` while rendering. -/
inductive DrawOp
  | fillWhite (w h : ℚ)
  | translate (x y : ℚ)
  | rotateDeg (a : ℕ)
  | scaleFlip (sx sy : ℤ)
  | drawImageAt (dx dy : ℚ)
  | drawImageScaled (dx dy dw dh : ℚ)
  | drawImageRect (sx sy sw sh dx dy dw dh : ℚ)
  | perturbPixel
deriving DecidableEq, Repr

/-- The sequence of canvas operations issued by each branch of
`processImage` before export, in source order. -/
def renderOps (s : ProcessingSettings) (srcW srcH : ℚ) : List DrawOp :=
  if s.tool = Tool.rotate then
    let d := canvasDims s srcW srcH
    [DrawOp.translate (d.1 / 2) (d.2 / 2),
     DrawOp.rotateDeg s.rotateAngle,
     DrawOp.scaleFlip (if s.flipHorizontal then -1 else 1)
       (if s.flipVertical then -1 else 1),
     DrawOp.drawImageAt (-(srcW / 2)) (-(srcH / 2))]
  else if s.tool = Tool.crop ∧ s.cropRatio ≠ CropRatio.original then
    let r := cropRect srcW srcH (targetRatioOf s.cropRatio)
    [DrawOp.fillWhite r.w r.h,
     DrawOp.drawImageRect r.x r.y r.w r.h 0 0 r.w r.h]
  else if s.tool = Tool.resize then
    let d := canvasDims s srcW srcH
    [DrawOp.fillWhite d.1 d.2, DrawOp.drawImageScaled 0 0 d.1 d.2]
  else
    let d := canvasDims s srcW srcH
    [DrawOp.fillWhite d.1 d.2, DrawOp.drawImageScaled 0 0 d.1 d.2]
      ++ (if s.tool = Tool.md5 then [DrawOp.perturbPixel] else [])

/-- Is this op a compositing (`drawImage`) call? -/
def DrawOp.isDraw : DrawOp → Bool
  | DrawOp.drawImageAt _ _ => true
  | DrawOp.drawImageScaled _ _ _ _ => true
  | DrawOp.drawImageRect _ _ _ _ _ _ _ _ => true
  | _ => false

/-- Is this op the solid-white `fillRect`? -/
def DrawOp.isFillWhite : DrawOp → Bool
  | DrawOp.fillWhite _ _ => true
  | _ => false

/-- Holds (`true`) iff the op list performs a white fill strictly before its first
compositing call (and does composite at all). -/
def whiteFilledBeforeDraw : List DrawOp → Bool
  | [] => false
  | op :: rest =>
    if op.isFillWhite then rest.any DrawOp.isDraw
    else if op.isDraw then false
    else whiteFilledBeforeDraw rest

/-- The MD5 pixel tweak of `processImage`, on a surface given as a function
from (x, y, channel) to the channel value: `if (data[0] < 255) data[0] += 1;
else data[0] -= 1;` applied to the single pixel read at (0,0). -/
def perturbPixelData (img : ℕ → ℕ → ℕ → ℕ) : ℕ → ℕ → ℕ → ℕ :=
  fun x y c =>
    if x = 0 ∧ y = 0 ∧ c = 0 then
      (if img 0 0 0 < 255 then img 0 0 0 + 1 else img 0 0 0 - 1)
    else img x y c

/-- The initial settings object of `App.tsx` (`useState` initializer:
tool compress, maxSizeKB 250, maxWidthOrHeight 0, format jpeg), with
neutral values for the extended tool fields. -/
def initialSettings : ProcessingSettings where
  tool := Tool.compress
  maxSizeKB := 250
  maxWidthOrHeight := 0
  format := ImgFormat.jpeg
  resizeMode := ResizeMode.dimensions
  resizeWidth := 0
  resizeHeight := 0
  resizePercentage := 100
  maintainAspectRatio := true
  cropRatio := CropRatio.original
  rotateAngle := 0
  flipHorizontal := false
  flipVertical := false

example :
    canvasDims { initialSettings with tool := Tool.crop, cropRatio := CropRatio.ratio 1 1 }
      1000 500 = (500, 500) := by decide

/-! ## Size-target search (`compress` export loop of `processImage`)

`enc q` abstracts `await toBlob(q, targetFormat)`: `none` is a `null`
blob, `some n` a blob of `n` bytes. -/

/-- The bounded binary-search loop of the compress branch:
`let minQ = 0.1, maxQ = 1.0, iter = 0; while (iter < 10) { const currQ =
(minQ + maxQ) / 2; ... if (maxQ - minQ < 0.05) break; iter++; }`.
The fuel argument counts the remaining loop-guard allowance (`10 - iter`);
`best` is the current `outputBlob`.  The two gap tests inline the updated
`minQ`/`maxQ` of the corresponding branch. -/
def searchGo (enc : ℚ → Option ℕ) (target : ℚ) :
    ℕ → ℚ → ℚ → Option ℕ → Option ℕ
  | 0, _, _, best => best
  | fuel + 1, minQ, maxQ, best =>
    let q := (minQ + maxQ) / 2
    match enc q with
    | none => best
    | some n =>
      if n ≤ target then
        if maxQ - q < 1 / 20 then some n
        else searchGo enc target fuel q maxQ (some n)
      else
        if q - minQ < 1 / 20 then best
        else searchGo enc target fuel minQ q best

/-- The list of quality values the loop actually probes (calls `enc` on),
in order.  Mirrors the control flow of `searchGo`; the probe sequence does
not depend on `best`. -/
def searchProbes (enc : ℚ → Option ℕ) (target : ℚ) :
    ℕ → ℚ → ℚ → List ℚ
  | 0, _, _ => []
  | fuel + 1, minQ, maxQ =>
    let q := (minQ + maxQ) / 2
    match enc q with
    | none => [q]
    | some n =>
      if n ≤ target then
        if maxQ - q < 1 / 20 then [q]
        else q :: searchProbes enc target fuel q maxQ
      else
        if q - minQ < 1 / 20 then [q]
        else q :: searchProbes enc target fuel minQ q

/-- The full search with the `if (!outputBlob) outputBlob = await
toBlob(0.5, targetFormat)` fallback.  A `none` result models falling
through to `throw new Error('Processing failed')`. -/
def sizeTargetSearch (enc : ℚ → Option ℕ) (target : ℚ) : Option ℕ :=
  match searchGo enc target 10 (1 / 10) 1 none with
  | some b => some b
  | none => enc (1 / 2)

/-- The compress-branch export: PNG skips the search and exports once at
quality 1; other formats run the bounded binary search with
`targetBytes = maxSizeKB * 1024`. -/
def compressExport (enc : ℚ → Option ℕ) (fmt : ImgFormat) (target : ℚ) :
    Option ℕ :=
  if fmt = ImgFormat.png then enc 1 else sizeTargetSearch enc target

/-! ## Full pipeline -/

/-- A decoded source image: dimensions and the size in bytes of the source
file it was decoded from. -/
structure SourceImage where
  width : ℚ
  height : ℚ
  size : ℕ
deriving DecidableEq, Repr

/-- The `File` produced by `processImage`: the encoded blob's byte length
plus the pixel dimensions of the canvas it was exported from. -/
structure OutputFile where
  width : ℚ
  height : ℚ
  size : ℕ
deriving DecidableEq, Repr

/-- The export step of `processImage`: compress runs `compressExport`,
every other tool exports once at quality 0.92.  `enc w h q` abstracts
`canvas.toBlob` on a `w × h` canvas at quality `q`. -/
def exportBlob (s : ProcessingSettings) (enc : ℚ → ℚ → ℚ → Option ℕ)
    (w h : ℚ) : Option ℕ :=
  if s.tool = Tool.compress then
    compressExport (enc w h) s.format (s.maxSizeKB * 1024)
  else enc w h (92 / 100)

/-- Function `processImage` from `src/types.ts`: compute the canvas geometry once,
render, export.  `none` models a thrown error (null blob at every
attempted quality). -/
def processImage (src : SourceImage) (s : ProcessingSettings)
    (enc : ℚ → ℚ → ℚ → Option ℕ) : Option OutputFile :=
  let d := canvasDims s src.width src.height
  (exportBlob s enc d.1 d.2).map fun n => ⟨d.1, d.2, n⟩

example :
    searchProbes (fun _ => some 100) 200 10 (1 / 10) 1 =
      [11 / 20, 31 / 40, 71 / 80, 151 / 160, 311 / 320] := by decide

example :
    sizeTargetSearch (fun _ => some 100) 200 = some 100 := by decide

example :
    sizeTargetSearch (fun _ => some 999) 200 = some 999 := by decide

example :
    sizeTargetSearch (fun _ => none) 200 = none := by decide

/-! ## Batch scheduler (`src/App.tsx`)

The job collection and its transitions.  Object URLs (display handles)
are modelled as numbers drawn from a counter; `revoked` collects the
handles passed to `URL.revokeObjectURL`.  The process-queue `useEffect`
is the `tick` transition (it re-runs after every state change); the
debounced settings effect is `settingsChanged` (restarts a 600 ms timer)
plus `elapse` (time passing, firing the timer when it runs out). -/

/-- Job status, `BatchItem['status']` in `src/types.ts`. -/
inductive JobStatus
  | pending | processing | completed | error
deriving DecidableEq, Repr

/-- Record `CompressedResult` from `src/types.ts`.  `App.tsx` fills `width` and
`height` with literal `0`. -/
structure CompressedResult where
  file : OutputFile
  previewUrl : ℕ
  originalSize : ℕ
  compressedSize : ℕ
  compressionRatio : ℚ
  width : ℚ
  height : ℚ
deriving DecidableEq, Repr

/-- Record `BatchItem` from `src/types.ts`. -/
structure BatchItem where
  id : ℕ
  originalFile : SourceImage
  status : JobStatus
  result : Option CompressedResult
  error : Option String
deriving DecidableEq, Repr

/-- Scheduler state: the `batchItems` list, the active `settings`, fresh-id
and fresh-url counters, the pending debounce timer (remaining ms), and the
ghost list of revoked display handles. -/
structure SchedState where
  items : List BatchItem
  settings : ProcessingSettings
  nextId : ℕ
  nextUrl : ℕ
  debounceTimer : Option ℕ
  revoked : List ℕ
deriving DecidableEq, Repr

/-- The fresh pending items built by `handleFilesSelect` (`files.map(f =>
({id, originalFile: f, status: 'pending', result: null}))`), with ids
drawn from a counter in place of `Math.random` strings. -/
def intakeItems (startId : ℕ) : List SourceImage → List BatchItem
  | [] => []
  | f :: fs =>
    { id := startId, originalFile := f, status := JobStatus.pending,
      result := none, error := none } :: intakeItems (startId + 1) fs

/-- The preview URLs held by a list of items (`i.result?.previewUrl`). -/
def heldUrls (items : List BatchItem) : List ℕ :=
  items.filterMap fun i => i.result.map CompressedResult.previewUrl

/-- Handler `handleFilesSelect`: revoke all previous handles, replace the whole
collection with fresh pending items. -/
def intakeFn (s : SchedState) (files : List SourceImage) : SchedState :=
  { s with
    items := intakeItems s.nextId files
    nextId := s.nextId + files.length
    revoked := s.revoked ++ heldUrls s.items }

/-- Source: `pendingItems[0]`, the first item with status `pending`. -/
def firstPending (items : List BatchItem) : Option BatchItem :=
  (items.filter fun i => i.status = JobStatus.pending).head?

/-- Source: `setBatchItems(prev => prev.map(i => i.id === itemToProcess.id ?
{...i, status: 'processing'} : i))`. -/
def markProcessing (jid : ℕ) (items : List BatchItem) : List BatchItem :=
  items.map fun i =>
    if i.id = jid then { i with status := JobStatus.processing } else i

/-- One run of the process-queue effect: if some item is pending, mark the
first pending item as processing (and spawn its task); otherwise nothing
changes. -/
def tickFn (s : SchedState) : SchedState :=
  match firstPending s.items with
  | none => s
  | some j => { s with items := markProcessing j.id s.items }

/-- The `CompressedResult` built on executor success in `App.tsx`
(note `width: 0, height: 0` in the source). -/
def mkResult (src : SourceImage) (out : OutputFile) (url : ℕ) :
    CompressedResult :=
  { file := out
    previewUrl := url
    originalSize := src.size
    compressedSize := out.size
    compressionRatio := (out.size : ℚ) / (src.size : ℚ)
    width := 0
    height := 0 }

/-- Task success: `{...i, status: 'completed', result}` (the spread keeps
any previous `error` field), with a fresh object URL for the preview. -/
def completeFn (s : SchedState) (jid : ℕ) (out : OutputFile) : SchedState :=
  { s with
    items := s.items.map fun i =>
      if i.id = jid then
        { i with status := JobStatus.completed,
                 result := some (mkResult i.originalFile out s.nextUrl) }
      else i
    nextUrl := s.nextUrl + 1 }

/-- Task failure: `{...i, status: 'error', error: 'Failed'}` (the spread
keeps the `result` field). -/
def failFn (s : SchedState) (jid : ℕ) : SchedState :=
  { s with
    items := s.items.map fun i =>
      if i.id = jid then
        { i with status := JobStatus.error, error := some "Failed" }
      else i }

/-- The debounced re-arm applied to one item: completed/error items go
back to pending with `result: null` (their handle revoked first); other
items are untouched. -/
def rearmItem (i : BatchItem) : BatchItem :=
  if i.status = JobStatus.completed ∨ i.status = JobStatus.error then
    { i with status := JobStatus.pending, result := none }
  else i

/-- Handles revoked by the re-arm pass: the previews of completed/error
items. -/
def rearmUrls (items : List BatchItem) : List ℕ :=
  heldUrls (items.filter fun i =>
    i.status = JobStatus.completed ∨ i.status = JobStatus.error)

/-- The body of the settings-change `setTimeout` callback. -/
def debounceFire (s : SchedState) : SchedState :=
  { s with
    items := s.items.map rearmItem
    revoked := s.revoked ++ rearmUrls s.items
    debounceTimer := none }

/-- A settings change: store the new settings and (re)start the 600 ms
debounce timer (the effect cleanup clears the previous timer). -/
def settingsFn (s : SchedState) (ns : ProcessingSettings) : SchedState :=
  { s with settings := ns, debounceTimer := some 600 }

/-- Let `d` milliseconds pass: the debounce timer fires if it runs out. -/
def elapseFn (s : SchedState) (d : ℕ) : SchedState :=
  match s.debounceTimer with
  | none => s
  | some t => if t ≤ d then debounceFire s else { s with debounceTimer := some (t - d) }

/-- Handler `handleReset`: revoke every handle and clear the collection. -/
def resetFn (s : SchedState) : SchedState :=
  { s with items := [], revoked := s.revoked ++ heldUrls s.items }

/-- The item with id `jid` exists and is currently processing (an
executor task for it is in flight). -/
def isProcessingId (items : List BatchItem) (jid : ℕ) : Prop :=
  ∃ i ∈ items, i.id = jid ∧ i.status = JobStatus.processing

instance (items : List BatchItem) (jid : ℕ) :
    Decidable (isProcessingId items jid) := by
  unfold isProcessingId; infer_instance

/-- One scheduler transition, from the two effects and the handlers of
`App.tsx`.  `completeOk` requires the finished task's output to be the
pipeline's result on the item's source file under the settings snapshot
`snap` that was active when the task started. -/
inductive SchedStep : SchedState → SchedState → Prop
  | intake (s : SchedState) (files : List SourceImage) :
      SchedStep s (intakeFn s files)
  | tick (s : SchedState) : SchedStep s (tickFn s)
  | completeOk (s : SchedState) (jid : ℕ) (out : OutputFile)
      (snap : ProcessingSettings) (enc : ℚ → ℚ → ℚ → Option ℕ)
      (hproc : isProcessingId s.items jid)
      (hout : ∀ i ∈ s.items, i.id = jid →
        processImage i.originalFile snap enc = some out) :
      SchedStep s (completeFn s jid out)
  | completeFail (s : SchedState) (jid : ℕ)
      (hproc : isProcessingId s.items jid) :
      SchedStep s (failFn s jid)
  | settingsChanged (s : SchedState) (ns : ProcessingSettings) :
      SchedStep s (settingsFn s ns)
  | elapse (s : SchedState) (d : ℕ) : SchedStep s (elapseFn s d)
  | reset (s : SchedState) : SchedStep s (resetFn s)

/-- The mounted app: no items, the initial settings object. -/
def initialState : SchedState :=
  { items := [], settings := initialSettings, nextId := 0, nextUrl := 0,
    debounceTimer := none, revoked := [] }

/-- States the scheduler can reach from the mounted app. -/
def SchedReachable (s : SchedState) : Prop :=
  Relation.ReflTransGen SchedStep initialState s

/-- Number of items currently in `processing`. -/
def countProcessing (items : List BatchItem) : ℕ :=
  (items.filter fun i => i.status = JobStatus.processing).length

/-! ## Scheduler invariants -/

/-- Status/result/error discipline of a single item, as the code actually
maintains it: pending and processing items have no result, completed items
always have a result, error items always carry the failure marker and no
result.  (A completed item may retain a stale `error` field: the success
spread does not clear it.) -/
def ItemInv (i : BatchItem) : Prop :=
  (i.status = JobStatus.pending → i.result = none)
  ∧ (i.status = JobStatus.processing → i.result = none)
  ∧ (i.status = JobStatus.completed → i.result ≠ none)
  ∧ (i.status = JobStatus.error → i.error ≠ none ∧ i.result = none)

/-- Global scheduler invariant: item ids are pairwise distinct and every
item satisfies `ItemInv`. -/
def SchedInv (s : SchedState) : Prop :=
  (s.items.map BatchItem.id).Nodup ∧ ∀ i ∈ s.items, ItemInv i

lemma intakeItems_id_ge (startId : ℕ) :
    ∀ fs : List SourceImage, ∀ i ∈ intakeItems startId fs, startId ≤ i.id := by
  intro fs
  induction fs generalizing startId with
  | nil => intro i hi; simp [intakeItems] at hi
  | cons f fs ih =>
    intro i hi
    simp only [intakeItems, List.mem_cons] at hi
    rcases hi with rfl | hi
    · exact le_rfl
    · exact le_trans (Nat.le_succ _) (ih (startId + 1) i hi)

lemma intakeItems_nodup (startId : ℕ) (fs : List SourceImage) :
    ((intakeItems startId fs).map BatchItem.id).Nodup := by
  induction fs generalizing startId with
  | nil => simp [intakeItems]
  | cons f fs ih =>
    simp only [intakeItems, List.map_cons, List.nodup_cons]
    refine ⟨?_, ih (startId + 1)⟩
    intro hmem
    rcases List.mem_map.mp hmem with ⟨i, hi, hid⟩
    have := intakeItems_id_ge (startId + 1) fs i hi
    omega

lemma intakeItems_itemInv (startId : ℕ) (fs : List SourceImage) :
    ∀ i ∈ intakeItems startId fs, ItemInv i := by
  induction fs generalizing startId with
  | nil => intro i hi; simp [intakeItems] at hi
  | cons f fs ih =>
    intro i hi
    simp only [intakeItems, List.mem_cons] at hi
    rcases hi with rfl | hi
    · refine ⟨fun _ => rfl, fun h => by simp at h, fun h => by simp at h, fun h => by simp at h⟩
    · exact ih (startId + 1) i hi

/-- All the item maps used by the scheduler preserve ids, so the mapped
id list is unchanged. -/
lemma map_ids_eq (items : List BatchItem) (f : BatchItem → BatchItem)
    (h : ∀ i, (f i).id = i.id) :
    ((items.map f).map BatchItem.id) = items.map BatchItem.id := by
  induction items with
  | nil => rfl
  | cons a l ih => simp [h a, ih]

lemma firstPending_spec {items : List BatchItem} {j : BatchItem}
    (h : firstPending items = some j) :
    j ∈ items ∧ j.status = JobStatus.pending := by
  unfold firstPending at h
  have hmem : j ∈ items.filter fun i => i.status = JobStatus.pending :=
    List.mem_of_mem_head? (by rw [h]; rfl)
  have hspec := List.mem_filter.mp hmem
  exact ⟨hspec.1, by simpa using hspec.2⟩

lemma schedInv_step {s t : SchedState} (hinv : SchedInv s)
    (hstep : SchedStep s t) : SchedInv t := by
  obtain ⟨hnd, hitem⟩ := hinv
  cases hstep with
  | intake files =>
    exact ⟨intakeItems_nodup _ _, intakeItems_itemInv _ _⟩
  | tick =>
    unfold tickFn
    cases hfp : firstPending s.items with
    | none => exact ⟨hnd, hitem⟩
    | some j =>
      obtain ⟨hjmem, hjpend⟩ := firstPending_spec hfp
      dsimp only
      constructor
      · unfold markProcessing
        rw [map_ids_eq]
        · exact hnd
        · intro i; split <;> rfl
      · intro i hi
        unfold markProcessing at hi
        simp only [List.mem_map] at hi
        obtain ⟨i0, hi0, rfl⟩ := hi
        by_cases hid : i0.id = j.id
        · have heq : i0 = j := List.inj_on_of_nodup_map hnd hi0 hjmem hid
          have hres := (hitem i0 hi0).1 (heq ▸ hjpend)
          rw [if_pos hid]
          refine ⟨?_, fun _ => hres, ?_, ?_⟩ <;> intro h <;> exact absurd h (by simp)
        · rw [if_neg hid]
          exact hitem i0 hi0
  | completeOk jid out snap enc hproc hout =>
    unfold completeFn
    constructor
    · dsimp only
      rw [map_ids_eq]
      · exact hnd
      · intro i; dsimp only; split <;> rfl
    · intro i hi
      simp only [List.mem_map] at hi
      obtain ⟨i0, hi0, rfl⟩ := hi
      by_cases hid : i0.id = jid
      · rw [if_pos hid]
        refine ⟨?_, ?_, fun _ => by simp, ?_⟩ <;> intro h <;> exact absurd h (by simp)
      · rw [if_neg hid]
        exact hitem i0 hi0
  | completeFail jid hproc =>
    obtain ⟨j0, hj0mem, hj0id, hj0proc⟩ := hproc
    unfold failFn
    constructor
    · dsimp only
      rw [map_ids_eq]
      · exact hnd
      · intro i; dsimp only; split <;> rfl
    · intro i hi
      simp only [List.mem_map] at hi
      obtain ⟨i0, hi0, rfl⟩ := hi
      by_cases hid : i0.id = jid
      · have heq : i0 = j0 :=
          List.inj_on_of_nodup_map hnd hi0 hj0mem (hid.trans hj0id.symm)
        have hres := (hitem i0 hi0).2.1 (heq ▸ hj0proc)
        rw [if_pos hid]
        refine ⟨?_, ?_, ?_, fun _ => ⟨by simp, hres⟩⟩ <;>
          intro h <;> exact absurd h (by simp)
      · rw [if_neg hid]
        exact hitem i0 hi0
  | settingsChanged ns =>
    exact ⟨hnd, hitem⟩
  | elapse d =>
    unfold elapseFn
    cases htimer : s.debounceTimer with
    | none => exact ⟨hnd, hitem⟩
    | some t =>
      dsimp only
      split
      · unfold debounceFire
        constructor
        · dsimp only
          rw [map_ids_eq]
          · exact hnd
          · intro i; unfold rearmItem; split <;> rfl
        · intro i hi
          simp only [List.mem_map] at hi
          obtain ⟨i0, hi0, rfl⟩ := hi
          unfold rearmItem
          split
          · refine ⟨fun _ => rfl, ?_, ?_, ?_⟩ <;>
              intro h <;> exact absurd h (by simp)
          · exact hitem i0 hi0
      · exact ⟨hnd, hitem⟩
  | reset =>
    refine ⟨?_, ?_⟩ <;> simp [resetFn]

/-- Every reachable scheduler state satisfies the invariant. -/
lemma schedInv_reachable {s : SchedState} (h : SchedReachable s) : SchedInv s := by
  unfold SchedReachable at h
  induction h with
  | refl => exact ⟨by simp [initialState], by simp [initialState]⟩
  | tail hab hbc ih => exact schedInv_step ih hbc

lemma markProcessing_eq_self {jid : ℕ} {items : List BatchItem}
    (h : ∀ i ∈ items, i.id ≠ jid) : markProcessing jid items = items := by
  induction items with
  | nil => rfl
  | cons a l ih =>
    have ha := h a (List.mem_cons_self _ _)
    have hl : ∀ i ∈ l, i.id ≠ jid := fun i hi => h i (List.mem_cons_of_mem _ hi)
    have h2 := ih hl
    unfold markProcessing at h2 ⊢
    simp only [List.map_cons, if_neg ha, h2]

lemma countProcessing_cons (a : BatchItem) (l : List BatchItem) :
    countProcessing (a :: l) =
      (if a.status = JobStatus.processing then 1 else 0) + countProcessing l := by
  by_cases h : a.status = JobStatus.processing
  · simp [countProcessing, List.filter_cons, h, Nat.add_comm]
  · simp [countProcessing, List.filter_cons, h]

/-- Marking the (unique) pending item `j` as processing increases the
processing count by exactly one. -/
lemma countProcessing_markProcessing {items : List BatchItem} {j : BatchItem}
    (hmem : j ∈ items) (hpend : j.status = JobStatus.pending)
    (hnd : (items.map BatchItem.id).Nodup) :
    countProcessing (markProcessing j.id items) = countProcessing items + 1 := by
  induction items with
  | nil => cases hmem
  | cons a l ih =>
    simp only [List.map_cons, List.nodup_cons] at hnd
    by_cases hid : a.id = j.id
    · have haj : a = j := by
        rcases List.mem_cons.mp hmem with h | hl
        · exact h.symm
        · exact absurd (hid ▸ List.mem_map_of_mem BatchItem.id hl) hnd.1
      have hmark : markProcessing j.id l = l := by
        refine markProcessing_eq_self fun i hi hieq => ?_
        exact hnd.1 (hid ▸ hieq ▸ List.mem_map_of_mem BatchItem.id hi)
      have hastat : a.status = JobStatus.pending := haj ▸ hpend
      unfold markProcessing
      simp only [List.map_cons, if_pos hid]
      have hml : List.map (fun i => if i.id = j.id then
          { i with status := JobStatus.processing } else i) l = l := hmark
      rw [hml, countProcessing_cons, countProcessing_cons, if_pos rfl,
        if_neg (by rw [hastat]; simp)]
      omega
    · have hjl : j ∈ l := by
        rcases List.mem_cons.mp hmem with h | hl
        · subst h; exact absurd rfl hid
        · exact hl
      have ihl := ih hjl hnd.2
      unfold markProcessing at ihl ⊢
      simp only [List.map_cons, if_neg hid]
      rw [countProcessing_cons, countProcessing_cons, ihl]
      omega

/-! ## Claim C1: single-flight scheduling -/

/-- A concrete 100 × 100, 1000-byte source file. -/
def demoFile : SourceImage := { width := 100, height := 100, size := 1000 }

/-- Two files taken in, then the queue effect runs twice (it re-runs after
each state change, since `batchItems` is in its dependency array). -/
def twoTickState : SchedState :=
  tickFn (tickFn (intakeFn initialState [demoFile, demoFile]))

lemma twoTickState_reachable : SchedReachable twoTickState :=
  Relation.ReflTransGen.tail
    (Relation.ReflTransGen.tail
      (Relation.ReflTransGen.tail Relation.ReflTransGen.refl
        (SchedStep.intake initialState [demoFile, demoFile]))
      (SchedStep.tick _))
    (SchedStep.tick _)

/-- C1 is false on the code: the process-queue effect has no guard
against an item already being `processing` — it re-runs whenever
`batchItems` changes and immediately starts the next pending item, so
after intake of two files and two effect runs, two Jobs are `processing`
at the same instant. -/
theorem c1_counterexample :
    SchedReachable twoTickState ∧ countProcessing twoTickState.items = 2 :=
  ⟨twoTickState_reachable, by decide⟩

/-- C1 (amended): a single run of the scheduler effect starts exactly one
Job — the first pending one in insertion order — raising the processing
count by exactly one; the ≤ 1 bound across successive runs does not hold. -/
theorem c1_tick_starts_exactly_one (s : SchedState) (j : BatchItem)
    (hreach : SchedReachable s) (hj : firstPending s.items = some j) :
    (tickFn s).items = markProcessing j.id s.items
    ∧ countProcessing (tickFn s).items = countProcessing s.items + 1 := by
  have hnd := (schedInv_reachable hreach).1
  obtain ⟨hmem, hpend⟩ := firstPending_spec hj
  have hitems : (tickFn s).items = markProcessing j.id s.items := by
    unfold tickFn; rw [hj]
  refine ⟨hitems, ?_⟩
  rw [hitems]
  exact countProcessing_markProcessing hmem hpend hnd

/-- State with two fresh pending items. -/
def oneIntakeState : SchedState := intakeFn initialState [demoFile, demoFile]

/-- The first item created by that intake. -/
def firstDemoItem : BatchItem :=
  { id := 0, originalFile := demoFile, status := JobStatus.pending,
    result := none, error := none }

theorem c1_tick_starts_exactly_one_witness :
    (tickFn oneIntakeState).items = markProcessing 0 oneIntakeState.items
    ∧ countProcessing (tickFn oneIntakeState).items
        = countProcessing oneIntakeState.items + 1 := by
  have h := c1_tick_starts_exactly_one oneIntakeState firstDemoItem
    (Relation.ReflTransGen.tail Relation.ReflTransGen.refl
      (SchedStep.intake initialState [demoFile, demoFile]))
    (by decide)
  exact h

/-! ## Claim C4: status / result / error discipline -/

/-- C4 (amended): in every reachable state, a pending Job has no result, a
completed Job always has a result, and an error Job always carries the
failure marker and no result.  (The original "never both" clause fails:
see `c4_counterexample` — a completed Job can retain a stale error
marker, because the success update spreads the old item.) -/
theorem c4_status_result_discipline (s : SchedState)
    (hreach : SchedReachable s) :
    ∀ i ∈ s.items,
      (i.status = JobStatus.pending → i.result = none)
      ∧ (i.status = JobStatus.completed → i.result ≠ none)
      ∧ (i.status = JobStatus.error → i.error ≠ none ∧ i.result = none) := by
  intro i hi
  have h := (schedInv_reachable hreach).2 i hi
  exact ⟨h.1, h.2.2.1, h.2.2.2⟩

theorem c4_status_result_discipline_witness :
    firstDemoItem.status = JobStatus.pending ∧ firstDemoItem.result = none := by
  have h := c4_status_result_discipline oneIntakeState
    (Relation.ReflTransGen.tail Relation.ReflTransGen.refl
      (SchedStep.intake initialState [demoFile, demoFile]))
    firstDemoItem (by decide)
  exact ⟨rfl, h.1 rfl⟩

/-- An encoder that always returns a 100-byte blob. -/
def encAll100 : ℚ → ℚ → ℚ → Option ℕ := fun _ _ _ => some 100

/-- The output `processImage` produces from `demoFile` under the initial
(compress) settings with `encAll100`. -/
def demoOut : OutputFile := { width := 100, height := 100, size := 100 }

/-- Trace: intake one file, start it, fail it, change settings, let the
debounce fire (re-arming the error item without clearing `error`), start
it again, and complete it successfully. -/
def staleErrorState : SchedState :=
  completeFn
    (tickFn
      (elapseFn
        (settingsFn (failFn (tickFn (intakeFn initialState [demoFile])) 0)
          initialSettings)
        600))
    0 demoOut

/-- C4's "never both" clause is false on the code: a Job that errored, was
re-armed by a settings change, and then completed successfully ends up
`completed` with a result *and* the stale `error: 'Failed'` marker, since
neither the re-arm nor the success update clears `error`. -/
theorem c4_counterexample :
    SchedReachable staleErrorState
    ∧ (staleErrorState.items.any fun i =>
        i.status = JobStatus.completed ∧ i.result ≠ none ∧ i.error ≠ none)
      = true := by
  constructor
  · refine Relation.ReflTransGen.tail (Relation.ReflTransGen.tail
      (Relation.ReflTransGen.tail (Relation.ReflTransGen.tail
        (Relation.ReflTransGen.tail (Relation.ReflTransGen.tail
          (Relation.ReflTransGen.tail Relation.ReflTransGen.refl
            (SchedStep.intake initialState [demoFile]))
          (SchedStep.tick _))
        (SchedStep.completeFail _ 0 (by decide)))
      (SchedStep.settingsChanged _ initialSettings))
      (SchedStep.elapse _ 600))
      (SchedStep.tick _)) ?_
    exact SchedStep.completeOk _ 0 demoOut initialSettings encAll100
      (by decide) (by decide)
  · decide

/-! ## Claim C5: debounced re-arm on settings change -/

/-- C5: after a settings change followed by 600 ms of quiet, the item list
is exactly the re-armed one: every previously completed/error Job is
pending with its result cleared and its preview handle revoked, and every
processing Job is untouched; before the 600 ms elapse nothing happens. -/
theorem c5_debounced_rearm (s : SchedState) (ns : ProcessingSettings) :
    ((elapseFn (settingsFn s ns) 600).items = s.items.map rearmItem)
    ∧ (∀ d : ℕ, d < 600 → (elapseFn (settingsFn s ns) d).items = s.items)
    ∧ (∀ i : BatchItem,
        (i.status = JobStatus.completed ∨ i.status = JobStatus.error) →
        (rearmItem i).status = JobStatus.pending ∧ (rearmItem i).result = none)
    ∧ (∀ i : BatchItem, i.status = JobStatus.processing → rearmItem i = i)
    ∧ (∀ i ∈ s.items,
        (i.status = JobStatus.completed ∨ i.status = JobStatus.error) →
        ∀ r, i.result = some r →
          r.previewUrl ∈ (elapseFn (settingsFn s ns) 600).revoked) := by
  refine ⟨rfl, ?_, ?_, ?_, ?_⟩
  · intro d hd
    simp only [elapseFn, settingsFn]
    rw [if_neg (by omega)]
  · intro i hi
    unfold rearmItem
    rw [if_pos hi]
    exact ⟨rfl, rfl⟩
  · intro i hi
    unfold rearmItem
    rw [if_neg]
    rintro (hc | he)
    · rw [hi] at hc; cases hc
    · rw [hi] at he; cases he
  · intro i hi hstat r hr
    have hrevoked : (elapseFn (settingsFn s ns) 600).revoked
        = s.revoked ++ rearmUrls s.items := rfl
    rw [hrevoked]
    refine List.mem_append_right _ ?_
    unfold rearmUrls heldUrls
    refine List.mem_filterMap.mpr ⟨i, ?_, ?_⟩
    · exact List.mem_filter.mpr ⟨hi, by simpa using hstat⟩
    · rw [hr]; rfl

/-- An item in the `completed` state holding a result. -/
def completedDemoItem : BatchItem :=
  { id := 0, originalFile := demoFile, status := JobStatus.completed,
    result := some (mkResult demoFile demoOut 0), error := none }

theorem c5_debounced_rearm_witness :
    ((elapseFn (settingsFn initialState initialSettings) 600).items
        = initialState.items.map rearmItem)
    ∧ (rearmItem completedDemoItem).status = JobStatus.pending
    ∧ (rearmItem completedDemoItem).result = none
    ∧ rearmItem firstDemoItem = firstDemoItem := by
  have h := c5_debounced_rearm initialState initialSettings
  have h3 := h.2.2.1 completedDemoItem (Or.inl rfl)
  exact ⟨h.1, h3.1, h3.2, by decide⟩

/-! ## Claims C2 and C3: the size-target search -/

lemma searchProbes_length_le (enc : ℚ → Option ℕ) (target : ℚ) :
    ∀ (fuel : ℕ) (minQ maxQ : ℚ),
      (searchProbes enc target fuel minQ maxQ).length ≤ fuel := by
  intro fuel
  induction fuel with
  | zero => intro minQ maxQ; simp [searchProbes]
  | succ n ih =>
    intro minQ maxQ
    unfold searchProbes
    dsimp only
    cases enc ((minQ + maxQ) / 2) with
    | none => simp
    | some k =>
      dsimp only
      split
      · split
        · simp
        · simpa using Nat.succ_le_succ (ih _ _)
      · split
        · simp
        · simpa using Nat.succ_le_succ (ih _ _)

lemma searchProbes_range (enc : ℚ → Option ℕ) (target : ℚ) :
    ∀ (fuel : ℕ) (minQ maxQ : ℚ), minQ ≤ maxQ →
      ∀ q ∈ searchProbes enc target fuel minQ maxQ, minQ ≤ q ∧ q ≤ maxQ := by
  intro fuel
  induction fuel with
  | zero => intro minQ maxQ _ q hq; simp [searchProbes] at hq
  | succ n ih =>
    intro minQ maxQ hle q hq
    have hmid_lo : minQ ≤ (minQ + maxQ) / 2 := by linarith
    have hmid_hi : (minQ + maxQ) / 2 ≤ maxQ := by linarith
    unfold searchProbes at hq
    dsimp only at hq
    cases henc : enc ((minQ + maxQ) / 2) with
    | none =>
      rw [henc] at hq
      simp only [List.mem_singleton] at hq
      exact hq ▸ ⟨hmid_lo, hmid_hi⟩
    | some k =>
      rw [henc] at hq
      dsimp only at hq
      split at hq
      · split at hq
        · simp only [List.mem_singleton] at hq
          exact hq ▸ ⟨hmid_lo, hmid_hi⟩
        · rcases List.mem_cons.mp hq with rfl | htail
          · exact ⟨hmid_lo, hmid_hi⟩
          · have := ih _ _ hmid_hi q htail
            exact ⟨le_trans hmid_lo this.1, this.2⟩
      · split at hq
        · simp only [List.mem_singleton] at hq
          exact hq ▸ ⟨hmid_lo, hmid_hi⟩
        · rcases List.mem_cons.mp hq with rfl | htail
          · exact ⟨hmid_lo, hmid_hi⟩
          · have := ih _ _ hmid_lo q htail
            exact ⟨this.1, le_trans this.2 hmid_hi⟩

/-- Once `outputBlob` holds a fitting blob, the loop's final result is
always a fitting blob: `outputBlob` is only ever overwritten by another
blob that passed the `blob.size <= targetBytes` test. -/
lemma searchGo_some_fits (enc : ℚ → Option ℕ) (target : ℚ) :
    ∀ (fuel : ℕ) (minQ maxQ : ℚ) (n : ℕ), (n : ℚ) ≤ target →
      ∃ m, searchGo enc target fuel minQ maxQ (some n) = some m
        ∧ (m : ℚ) ≤ target := by
  intro fuel
  induction fuel with
  | zero => intro minQ maxQ n hn; exact ⟨n, rfl, hn⟩
  | succ f ih =>
    intro minQ maxQ n hn
    unfold searchGo
    dsimp only
    cases enc ((minQ + maxQ) / 2) with
    | none => exact ⟨n, rfl, hn⟩
    | some k =>
      dsimp only
      split
      · split
        · next hk _ => exact ⟨k, rfl, hk⟩
        · exact ih _ _ k (by assumption)
      · split
        · exact ⟨n, rfl, hn⟩
        · exact ih _ _ n hn

/-- If no probed quality fits the byte budget, `outputBlob` is never
written: the loop returns `best` unchanged. -/
lemma searchGo_no_fit (enc : ℚ → Option ℕ) (target : ℚ) :
    ∀ (fuel : ℕ) (minQ maxQ : ℚ) (best : Option ℕ),
      (∀ q ∈ searchProbes enc target fuel minQ maxQ,
        ∀ k, enc q = some k → ¬((k : ℚ) ≤ target)) →
      searchGo enc target fuel minQ maxQ best = best := by
  intro fuel
  induction fuel with
  | zero => intro minQ maxQ best _; rfl
  | succ f ih =>
    intro minQ maxQ best hno
    unfold searchGo
    dsimp only
    cases henc : enc ((minQ + maxQ) / 2) with
    | none => rfl
    | some k =>
      dsimp only
      have hmid : ((minQ + maxQ) / 2) ∈ searchProbes enc target (f + 1) minQ maxQ := by
        unfold searchProbes
        dsimp only
        rw [henc]
        dsimp only
        split
        · split
          · exact List.mem_singleton.mpr rfl
          · exact List.mem_cons_self _ _
        · split
          · exact List.mem_singleton.mpr rfl
          · exact List.mem_cons_self _ _
      have hknf := hno _ hmid k henc
      rw [if_neg hknf]
      split
      · rfl
      · refine ih _ _ best fun q hq k2 hk2 => hno q ?_ k2 hk2
        unfold searchProbes
        dsimp only
        rw [henc]
        dsimp only
        rw [if_neg hknf]
        split
        · next hgap => exact absurd hgap (by assumption)
        · exact List.mem_cons_of_mem _ hq

/-- If some probed quality fits, the loop's result is a blob that fits
(whatever the incoming `best`, provided it fits when present). -/
lemma searchGo_fit_probe (enc : ℚ → Option ℕ) (target : ℚ) :
    ∀ (fuel : ℕ) (minQ maxQ : ℚ) (best : Option ℕ),
      (∀ b, best = some b → (b : ℚ) ≤ target) →
      ∀ q0 ∈ searchProbes enc target fuel minQ maxQ,
        ∀ n0, enc q0 = some n0 → (n0 : ℚ) ≤ target →
          ∃ m, searchGo enc target fuel minQ maxQ best = some m
            ∧ (m : ℚ) ≤ target := by
  intro fuel
  induction fuel with
  | zero => intro minQ maxQ best _ q0 hq0; simp [searchProbes] at hq0
  | succ f ih =>
    intro minQ maxQ best hbest q0 hq0 n0 henc0 hfit0
    unfold searchProbes at hq0
    dsimp only at hq0
    unfold searchGo
    dsimp only
    cases henc : enc ((minQ + maxQ) / 2) with
    | none =>
      rw [henc] at hq0
      simp only [List.mem_singleton] at hq0
      rw [hq0, henc] at henc0
      cases henc0
    | some k =>
      rw [henc] at hq0
      dsimp only at hq0 ⊢
      by_cases hk : (k : ℚ) ≤ target
      · rw [if_pos hk]
        by_cases hgap : maxQ - (minQ + maxQ) / 2 < 1 / 20
        · rw [if_pos hgap]
          exact ⟨k, rfl, hk⟩
        · rw [if_neg hgap]
          exact searchGo_some_fits enc target _ _ _ k hk
      · rw [if_neg hk] at hq0 ⊢
        have hq0ne : q0 ≠ (minQ + maxQ) / 2 := by
          intro heq
          rw [heq, henc] at henc0
          cases henc0
          exact hk hfit0
        by_cases hgap : (minQ + maxQ) / 2 - minQ < 1 / 20
        · rw [if_pos hgap] at hq0
          simp only [List.mem_singleton] at hq0
          exact absurd hq0 hq0ne
        · rw [if_neg hgap] at hq0 ⊢
          rcases List.mem_cons.mp hq0 with heq | htail
          · exact absurd heq hq0ne
          · exact ih _ _ best hbest q0 htail n0 henc0 hfit0

/-- C2: whenever some quality actually probed by the bounded binary
search yields a blob within `targetBytes`, the search terminates within
10 probes, every probed quality lies in [0.1, 1.0], and the final blob
fits the budget. -/
theorem c2_size_target_convergence (enc : ℚ → Option ℕ) (target : ℚ)
    (q0 : ℚ) (n0 : ℕ)
    (hq : q0 ∈ searchProbes enc target 10 (1 / 10) 1)
    (henc : enc q0 = some n0) (hfit : (n0 : ℚ) ≤ target) :
    (searchProbes enc target 10 (1 / 10) 1).length ≤ 10
    ∧ (∀ q ∈ searchProbes enc target 10 (1 / 10) 1, 1 / 10 ≤ q ∧ q ≤ 1)
    ∧ ∃ m, sizeTargetSearch enc target = some m ∧ (m : ℚ) ≤ target := by
  refine ⟨searchProbes_length_le enc target 10 (1 / 10) 1,
    searchProbes_range enc target 10 (1 / 10) 1 (by norm_num), ?_⟩
  obtain ⟨m, hm, hfitm⟩ :=
    searchGo_fit_probe enc target 10 (1 / 10) 1 none
      (fun b hb => by cases hb) q0 hq n0 henc hfit
  refine ⟨m, ?_, hfitm⟩
  unfold sizeTargetSearch
  rw [hm]

/-- A constant encoder producing 100-byte blobs at every quality. -/
def encConst100 : ℚ → Option ℕ := fun _ => some 100

theorem c2_size_target_convergence_witness :
    (11 / 20 : ℚ) ∈ searchProbes encConst100 200 10 (1 / 10) 1
    ∧ encConst100 (11 / 20) = some 100
    ∧ ((100 : ℕ) : ℚ) ≤ 200
    ∧ (searchProbes encConst100 200 10 (1 / 10) 1).length ≤ 10
    ∧ ∃ m, sizeTargetSearch encConst100 200 = some m ∧ (m : ℚ) ≤ 200 := by
  have h := c2_size_target_convergence encConst100 200 (11 / 20) 100
    (by decide) rfl (by decide)
  exact ⟨by decide, rfl, by decide, h.1, h.2.2⟩

/-- An encoder whose blobs never fit and that even returns `null` at the
fallback quality (models a failing host encoder). -/
def encNone : ℚ → ℚ → ℚ → Option ℕ := fun _ _ _ => none

/-- C3's "never fails for every input" is false on the code: if the
encoder returns a `null` blob (the loop breaks immediately and the
quality-0.5 fallback also returns `null`), `processImage` reaches
`throw new Error('Processing failed')`, modelled as `none`. -/
theorem c3_counterexample :
    processImage demoFile initialSettings encNone = none := by decide

/-- C3 (amended): the size-target search itself never fails as long as
the encoder produces a blob at the fallback quality 0.5: when no probed
quality fits the budget it returns the quality-0.5 fallback blob rather
than signalling an error; and the pipeline never renegotiates geometry —
the output dimensions are exactly the once-computed `canvasDims`, and the
encoder is only ever consulted at those dimensions. -/
theorem c3_fallback_no_geometry_change :
    (∀ (enc : ℚ → Option ℕ) (target : ℚ),
      (∀ q ∈ searchProbes enc target 10 (1 / 10) 1,
        ∀ k, enc q = some k → ¬((k : ℚ) ≤ target)) →
      sizeTargetSearch enc target = enc (1 / 2))
    ∧ (∀ (enc : ℚ → Option ℕ) (target : ℚ) (b : ℕ),
        enc (1 / 2) = some b → ∃ m, sizeTargetSearch enc target = some m)
    ∧ (∀ (src : SourceImage) (s : ProcessingSettings)
        (e : ℚ → ℚ → ℚ → Option ℕ) (out : OutputFile),
        processImage src s e = some out →
        out.width = (canvasDims s src.width src.height).1
        ∧ out.height = (canvasDims s src.width src.height).2)
    ∧ (∀ (src : SourceImage) (s : ProcessingSettings)
        (e1 e2 : ℚ → ℚ → ℚ → Option ℕ),
        (∀ q, e1 (canvasDims s src.width src.height).1
            (canvasDims s src.width src.height).2 q
          = e2 (canvasDims s src.width src.height).1
            (canvasDims s src.width src.height).2 q) →
        processImage src s e1 = processImage src s e2) := by
  refine ⟨?_, ?_, ?_, ?_⟩
  · intro enc target hno
    unfold sizeTargetSearch
    rw [searchGo_no_fit enc target 10 (1 / 10) 1 none hno]
  · intro enc target b hb
    unfold sizeTargetSearch
    cases hgo : searchGo enc target 10 (1 / 10) 1 none with
    | none => exact ⟨b, hb⟩
    | some m => exact ⟨m, rfl⟩
  · intro src s e out hout
    unfold processImage at hout
    rcases Option.map_eq_some'.mp hout with ⟨n, _, rfl⟩
    exact ⟨rfl, rfl⟩
  · intro src s e1 e2 hq
    unfold processImage
    dsimp only
    have hfn : e1 (canvasDims s src.width src.height).1
        (canvasDims s src.width src.height).2
        = e2 (canvasDims s src.width src.height).1
          (canvasDims s src.width src.height).2 := funext hq
    have hexp : exportBlob s e1 (canvasDims s src.width src.height).1
        (canvasDims s src.width src.height).2
        = exportBlob s e2 (canvasDims s src.width src.height).1
          (canvasDims s src.width src.height).2 := by
      unfold exportBlob
      rw [hfn]
    rw [hexp]

/-- An encoder returning 999-byte blobs at every quality. -/
def encConst999 : ℚ → Option ℕ := fun _ => some 999

theorem c3_fallback_no_geometry_change_witness :
    sizeTargetSearch encConst999 200 = encConst999 (1 / 2)
    ∧ (∃ m, sizeTargetSearch encConst999 200 = some m)
    ∧ demoOut.width
        = (canvasDims initialSettings demoFile.width demoFile.height).1 := by
  have h := c3_fallback_no_geometry_change
  refine ⟨h.1 encConst999 200 ?_, h.2.1 encConst999 200 999 rfl, ?_⟩
  · intro q hq k hk
    have hk999 : k = 999 := by
      have : some 999 = some k := hk
      cases this
      rfl
    rw [hk999]
    decide
  · exact (h.2.2.1 demoFile initialSettings encAll100 demoOut (by decide)).1

/-! ## Claim C6: white background fill -/

/-- The rotate tool at 90° (no flips). -/
def rotate90Settings : ProcessingSettings :=
  { initialSettings with tool := Tool.rotate, rotateAngle := 90 }

/-- C6 is false on the code for the rotate variant: the rotate branch
issues translate/rotate/scale/drawImage with *no* white `fillRect`,
unlike every other branch. -/
theorem c6_counterexample :
    whiteFilledBeforeDraw (renderOps rotate90Settings 100 50) = false := by
  decide

/-- C6 (amended): for every tool except rotate, the destination canvas is
filled with solid white before the source image is composited; the rotate
branch composites without any background fill. -/
theorem c6_white_fill (s : ProcessingSettings) (srcW srcH : ℚ)
    (h : s.tool ≠ Tool.rotate) :
    whiteFilledBeforeDraw (renderOps s srcW srcH) = true := by
  unfold renderOps
  rw [if_neg h]
  split
  · rfl
  · split
    · rfl
    · rfl

/-- The crop tool at ratio 1:1. -/
def cropSettingsOf (rw0 rh0 : ℕ) : ProcessingSettings :=
  { initialSettings with tool := Tool.crop, cropRatio := CropRatio.ratio rw0 rh0 }

theorem c6_white_fill_witness :
    whiteFilledBeforeDraw (renderOps (cropSettingsOf 1 1) 1000 500) = true :=
  c6_white_fill (cropSettingsOf 1 1) 1000 500 (by decide)

/-! ## Claim C7: rotate dimension swap -/

/-- C7: with the rotate tool, the output surface is the source with width
and height swapped when the angle is 90 or 270, and unchanged when the
angle is 0 or 180. -/
theorem c7_rotate_dims (s : ProcessingSettings) (srcW srcH : ℚ)
    (htool : s.tool = Tool.rotate) :
    ((s.rotateAngle = 90 ∨ s.rotateAngle = 270) →
      canvasDims s srcW srcH = (srcH, srcW))
    ∧ ((s.rotateAngle = 0 ∨ s.rotateAngle = 180) →
      canvasDims s srcW srcH = (srcW, srcH)) := by
  constructor
  · intro hang
    unfold canvasDims
    rw [if_pos htool, if_pos hang]
  · intro hang
    unfold canvasDims
    rw [if_pos htool]
    rcases hang with h | h <;> rw [h] <;> rw [if_neg (by decide)]

/-- The rotate tool at 180°. -/
def rotate180Settings : ProcessingSettings :=
  { initialSettings with tool := Tool.rotate, rotateAngle := 180 }

theorem c7_rotate_dims_witness :
    canvasDims rotate90Settings 100 50 = (50, 100)
    ∧ canvasDims rotate180Settings 100 50 = (100, 50) :=
  ⟨(c7_rotate_dims rotate90Settings 100 50 rfl).1 (Or.inl rfl),
   (c7_rotate_dims rotate180Settings 100 50 rfl).2 (Or.inr rfl)⟩

/-! ## Claim C8: centered ratio crop -/

/-- C8: cropping to ratio `rw0:rh0` keeps a full-height,
`srcH * ratio`-wide region centered horizontally when the source is wider
than the target ratio, and a full-width, `srcW / ratio`-tall region
centered vertically otherwise; the output surface is the cropped region's
size and the draw copies it 1:1 (source rectangle = destination
rectangle, no scaling).  Concretely, a 1:1 crop of a 1000×500 source is a
500×500 output at offset (250, 0). -/
theorem c8_centered_crop (srcW srcH : ℚ) (rw0 rh0 : ℕ)
    (hrw : 0 < rw0) (hrh : 0 < rh0) :
    (targetRatioOf (cropSettingsOf rw0 rh0).cropRatio = (rw0 : ℚ) / (rh0 : ℚ))
    ∧ (srcW / srcH > (rw0 : ℚ) / (rh0 : ℚ) →
        cropRect srcW srcH ((rw0 : ℚ) / (rh0 : ℚ))
          = ⟨(srcW - srcH * ((rw0 : ℚ) / (rh0 : ℚ))) / 2, 0,
             srcH * ((rw0 : ℚ) / (rh0 : ℚ)), srcH⟩)
    ∧ (¬(srcW / srcH > (rw0 : ℚ) / (rh0 : ℚ)) →
        cropRect srcW srcH ((rw0 : ℚ) / (rh0 : ℚ))
          = ⟨0, (srcH - srcW / ((rw0 : ℚ) / (rh0 : ℚ))) / 2,
             srcW, srcW / ((rw0 : ℚ) / (rh0 : ℚ))⟩)
    ∧ (canvasDims (cropSettingsOf rw0 rh0) srcW srcH
        = ((cropRect srcW srcH ((rw0 : ℚ) / (rh0 : ℚ))).w,
           (cropRect srcW srcH ((rw0 : ℚ) / (rh0 : ℚ))).h))
    ∧ (renderOps (cropSettingsOf rw0 rh0) srcW srcH
        = [DrawOp.fillWhite (cropRect srcW srcH ((rw0 : ℚ) / (rh0 : ℚ))).w
             (cropRect srcW srcH ((rw0 : ℚ) / (rh0 : ℚ))).h,
           DrawOp.drawImageRect
             (cropRect srcW srcH ((rw0 : ℚ) / (rh0 : ℚ))).x
             (cropRect srcW srcH ((rw0 : ℚ) / (rh0 : ℚ))).y
             (cropRect srcW srcH ((rw0 : ℚ) / (rh0 : ℚ))).w
             (cropRect srcW srcH ((rw0 : ℚ) / (rh0 : ℚ))).h 0 0
             (cropRect srcW srcH ((rw0 : ℚ) / (rh0 : ℚ))).w
             (cropRect srcW srcH ((rw0 : ℚ) / (rh0 : ℚ))).h])
    ∧ cropRect 1000 500 1 = ⟨250, 0, 500, 500⟩
    ∧ canvasDims (cropSettingsOf 1 1) 1000 500 = (500, 500) := by
  have hratio : targetRatioOf (cropSettingsOf rw0 rh0).cropRatio
      = (rw0 : ℚ) / (rh0 : ℚ) := by
    show (if rw0 ≠ 0 ∧ rh0 ≠ 0 then (rw0 : ℚ) / (rh0 : ℚ) else 1)
      = (rw0 : ℚ) / (rh0 : ℚ)
    rw [if_pos ⟨Nat.pos_iff_ne_zero.mp hrw, Nat.pos_iff_ne_zero.mp hrh⟩]
  have htool : ¬(cropSettingsOf rw0 rh0).tool = Tool.rotate := by
    simp [cropSettingsOf]
  have hcr : (cropSettingsOf rw0 rh0).tool = Tool.crop
      ∧ (cropSettingsOf rw0 rh0).cropRatio ≠ CropRatio.original :=
    ⟨rfl, by simp [cropSettingsOf]⟩
  refine ⟨hratio, ?_, ?_, ?_, ?_, by decide, by decide⟩
  · intro hgt
    unfold cropRect
    rw [if_pos hgt]
  · intro hle
    unfold cropRect
    rw [if_neg hle]
  · unfold canvasDims
    rw [if_neg htool, if_pos hcr, hratio]
  · unfold renderOps
    rw [if_neg htool, if_pos hcr, hratio]

theorem c8_centered_crop_witness :
    cropRect 1000 500 1 = ⟨250, 0, 500, 500⟩
    ∧ canvasDims (cropSettingsOf 1 1) 1000 500 = (500, 500) := by
  have h := c8_centered_crop 1000 500 1 1 (by decide) (by decide)
  exact ⟨h.2.2.2.2.2.1, h.2.2.2.2.2.2⟩

/-! ## Claim C9: percentage resize, end to end -/

/-- The resize tool in percentage mode at 50 %. -/
def resize50Settings : ProcessingSettings :=
  { initialSettings with
      tool := Tool.resize
      resizeMode := ResizeMode.percentage
      resizePercentage := 50 }

/-- Three source files of different dimensions. -/
def fileA : SourceImage := { width := 800, height := 600, size := 5000 }

def fileB : SourceImage := { width := 1001, height := 501, size := 6000 }

def fileC : SourceImage := { width := 33, height := 77, size := 7000 }

/-- An encoder that always yields a 1234-byte blob. -/
def encFixed : ℚ → ℚ → ℚ → Option ℕ := fun _ _ _ => some 1234

/-- Expected pipeline outputs at 50 %: dimensions rounded half-up. -/
def outA : OutputFile := { width := 400, height := 300, size := 1234 }

def outB : OutputFile := { width := 501, height := 251, size := 1234 }

def outC : OutputFile := { width := 17, height := 39, size := 1234 }

/-- Trace: switch to 50 % percentage resize, intake three files, process
them one after another. -/
def resizeTraceState : SchedState :=
  completeFn
    (tickFn
      (completeFn
        (tickFn
          (completeFn
            (tickFn
              (intakeFn (settingsFn initialState resize50Settings)
                [fileA, fileB, fileC]))
            0 outA))
        1 outB))
    2 outC

lemma resizeTraceState_reachable : SchedReachable resizeTraceState := by
  have h0 : SchedReachable initialState := Relation.ReflTransGen.refl
  have h1 := Relation.ReflTransGen.tail h0
    (SchedStep.settingsChanged initialState resize50Settings)
  have h2 := Relation.ReflTransGen.tail h1
    (SchedStep.intake _ [fileA, fileB, fileC])
  have h3 := Relation.ReflTransGen.tail h2 (SchedStep.tick _)
  have h4 := Relation.ReflTransGen.tail h3
    (SchedStep.completeOk _ 0 outA resize50Settings encFixed (by decide) (by decide))
  have h5 := Relation.ReflTransGen.tail h4 (SchedStep.tick _)
  have h6 := Relation.ReflTransGen.tail h5
    (SchedStep.completeOk _ 1 outB resize50Settings encFixed (by decide) (by decide))
  have h7 := Relation.ReflTransGen.tail h6 (SchedStep.tick _)
  exact Relation.ReflTransGen.tail h7
    (SchedStep.completeOk _ 2 outC resize50Settings encFixed (by decide) (by decide))

/-- C9: percentage-mode resize sets the output surface to
`round(srcW * pct/100) × round(srcH * pct/100)`; and the end-to-end trace
of 3 files at 50 % leaves 3 completed Jobs whose output files have
exactly the half-rounded dimensions. -/
theorem c9_resize_percentage (s : ProcessingSettings) (srcW srcH : ℚ)
    (htool : s.tool = Tool.resize)
    (hmode : s.resizeMode = ResizeMode.percentage) :
    canvasDims s srcW srcH
      = (((round (srcW * (s.resizePercentage / 100)) : ℤ) : ℚ),
         ((round (srcH * (s.resizePercentage / 100)) : ℤ) : ℚ))
    ∧ SchedReachable resizeTraceState
    ∧ (resizeTraceState.items.map fun i =>
        (i.status, i.result.map fun r => (r.file.width, r.file.height)))
      = [(JobStatus.completed, some ((400 : ℚ), (300 : ℚ))),
         (JobStatus.completed, some ((501 : ℚ), (251 : ℚ))),
         (JobStatus.completed, some ((17 : ℚ), (39 : ℚ)))] := by
  refine ⟨?_, resizeTraceState_reachable, by decide⟩
  unfold canvasDims
  rw [htool]
  rw [if_neg (by decide), if_neg (fun hc => Tool.noConfusion hc.1),
    if_pos rfl, hmode, if_pos rfl]

theorem c9_resize_percentage_witness :
    canvasDims resize50Settings 800 600 = (400, 300) := by
  have h := (c9_resize_percentage resize50Settings 800 600 rfl rfl).1
  rw [h]
  decide

/-! ## Claim C10: the MD5 pixel perturbation -/

/-- C10: the perturbation op appears in the render plan exactly for the
md5 tool; it bumps channel 0 of pixel (0,0) up by one (down by one when
already at 255) and leaves every other coordinate untouched.  As a Lean
function of the surface it is deterministic by construction. -/
theorem c10_md5_perturbation :
    (∀ (s : ProcessingSettings) (srcW srcH : ℚ),
      DrawOp.perturbPixel ∈ renderOps s srcW srcH ↔ s.tool = Tool.md5)
    ∧ (∀ img : ℕ → ℕ → ℕ → ℕ,
        (img 0 0 0 < 255 → perturbPixelData img 0 0 0 = img 0 0 0 + 1)
        ∧ (¬img 0 0 0 < 255 → perturbPixelData img 0 0 0 = img 0 0 0 - 1)
        ∧ (∀ x y c, ¬(x = 0 ∧ y = 0 ∧ c = 0) →
            perturbPixelData img x y c = img x y c)) := by
  constructor
  · intro s srcW srcH
    unfold renderOps
    cases htool : s.tool with
    | compress => simp
    | convert => simp
    | md5 => simp
    | resize => simp
    | crop =>
      by_cases hcr : s.cropRatio = CropRatio.original
      · simp [hcr]
      · simp [hcr]
    | rotate => simp
  · intro img
    refine ⟨fun h => ?_, fun h => ?_, fun x y c hne => ?_⟩
    · unfold perturbPixelData
      rw [if_pos ⟨rfl, rfl, rfl⟩, if_pos h]
    · unfold perturbPixelData
      rw [if_pos ⟨rfl, rfl, rfl⟩, if_neg h]
    · unfold perturbPixelData
      rw [if_neg hne]

/-- The md5 tool with the initial shared fields. -/
def md5Settings : ProcessingSettings :=
  { initialSettings with tool := Tool.md5 }

/-- A constant surface with every channel at 10. -/
def constImg : ℕ → ℕ → ℕ → ℕ := fun _ _ _ => 10

theorem c10_md5_perturbation_witness :
    (DrawOp.perturbPixel ∈ renderOps md5Settings 100 100
      ↔ md5Settings.tool = Tool.md5)
    ∧ perturbPixelData constImg 0 0 0 = constImg 0 0 0 + 1
    ∧ perturbPixelData constImg 1 0 0 = constImg 1 0 0 := by
  have h := c10_md5_perturbation
  exact ⟨h.1 md5Settings 100 100, (h.2 constImg).1 (by decide),
    (h.2 constImg).2.2 1 0 0 (by simp)⟩

end PicShrink
